import Mathlib

/-!
Verification of the pylearn2 GSN model (`pylearn2/models/gsn.py`) and the
training monitor (`pylearn2/monitor.py`).

The theano symbolic-graph substrate is shallowly embedded: symbolic tensor
expressions become the inductive type `Expr` below (graph construction in the
Python code builds exactly these terms), shared parameters (weights, biases)
are symbolic leaves indexed by the position of the autoencoder that owns them,
and the corruptor callables stored in `preact_cors` / `postact_cors` appear as
the constructors `preCor i` / `postCor i` (application of the callable at
index `i`).  Python floats are modelled as exact rationals, machine lists as
`List`, and methods that mutate `self` as explicit state-passing functions.
-/

namespace Pylearn2

/-- Symbolic theano tensor expressions as built by `gsn.py`:
`minibatch` is the input symbol, `weight i` / `visbias i` / `hidbias i` are
the shared parameters of autoencoder `i`, `transpose` is `.T`, `dot` is
`T.dot`, `add` is `+`, `zerosLike` is `T.zeros_like`, `preCor i e` / `postCor
i e` are `self.preact_cors[i](e)` / `self.postact_cors[i](e)`, and `actEnc i`
/ `actDec i` are applications of `aes[i].act_enc` / `aes[i].act_dec`. -/
inductive Expr : Type
  | minibatch : Expr
  | weight : Nat → Expr
  | visbias : Nat → Expr
  | hidbias : Nat → Expr
  | transpose : Expr → Expr
  | dot : Expr → Expr → Expr
  | add : Expr → Expr → Expr
  | zerosLike : Expr → Expr
  | preCor : Nat → Expr → Expr
  | postCor : Nat → Expr → Expr
  | actEnc : Nat → Expr → Expr
  | actDec : Nat → Expr → Expr
  deriving DecidableEq, Repr

instance : Inhabited Expr := ⟨Expr.minibatch⟩

/-- The part of a pylearn2 `Autoencoder` the GSN uses: its parameter list
(opaque identifiers) and whether its `act_enc` / `act_dec` activation
callables are `None` (which the GSN treats as the linear activation). -/
structure Autoencoder where
  params : List Nat
  actEncNone : Bool
  actDecNone : Bool
  deriving DecidableEq, Repr

instance : Inhabited Autoencoder := ⟨⟨[], false, false⟩⟩

/-- A `GSN` is determined by its stack of autoencoders (`self.aes`). -/
structure GSN where
  aes : List Autoencoder
  deriving DecidableEq, Repr

/-- Python `range(a, b, 2)` over naturals. -/
def range2 (a b : Nat) : List Nat :=
  (List.range ((b - a + 1) / 2)).map (fun k => a + 2 * k)

/-- `from_above` in `GSN._update_activations`:
`aes[i].visbias + T.dot(activations[i+1], aes[i].weights.T)`. -/
def fromAbove (acts : List Expr) (i : Nat) : Expr :=
  Expr.add (Expr.visbias i)
    (Expr.dot (acts.getD (i + 1) default) (Expr.transpose (Expr.weight i)))

/-- `from_below` in `GSN._update_activations`:
`aes[i-1].hidbias + T.dot(activations[i-1], aes[i-1].weights)`. -/
def fromBelow (acts : List Expr) (i : Nat) : Expr :=
  Expr.add (Expr.hidbias (i - 1))
    (Expr.dot (acts.getD (i - 1) default) (Expr.weight (i - 1)))

/-- The body of the loop in `GSN._update_activations` for one index `i`:
the preactivation (from above at the bottom, from below at the top, the sum
in between), then the preactivation corruptor at `i`, then the activation
function (`act_dec` of autoencoder 0 for the visible layer, `act_enc` of
autoencoder `i-1` above it; `None` means linear). -/
def GSN.computeAct (g : GSN) (acts : List Expr) (i : Nat) : Expr :=
  let pre :=
    if i = 0 then fromAbove acts i
    else if i = acts.length - 1 then fromBelow acts i
    else Expr.add (fromBelow acts i) (fromAbove acts i)
  let cor := Expr.preCor i pre
  if i = 0 then
    if (g.aes.getD 0 default).actDecNone then cor else Expr.actDec 0 cor
  else
    if (g.aes.getD (i - 1) default).actEncNone then cor else Expr.actEnc (i - 1) cor

/-- `GSN._update_activations(idx_iter)`: sequentially recompute
`activations[i]` for each `i` in `idx_iter`. -/
def GSN.updateActivations (g : GSN) (idx : List Nat) (acts : List Expr) : List Expr :=
  idx.foldl (fun a i => a.set i (g.computeAct a i)) acts

/-- `GSN._apply_postact_corruption(idx_iter)`: sequentially replace
`activations[i]` by `postact_cors[i](activations[i])`. -/
def applyPostactCorruption (idx : List Nat) (acts : List Expr) : List Expr :=
  idx.foldl (fun a i => a.set i (Expr.postCor i (a.getD i default))) acts

/-- `GSN._update(time=t)`: update and post-corrupt the odd layers
`range(1, min(2t, L), 2)`, then update (without corrupting) the even layers
`range(0, min(2t+1, L), 2)`, where `L = len(self.activations)`. -/
def GSN.update (g : GSN) (acts : List Expr) (t : Nat) : List Expr :=
  let odds := range2 1 (min (2 * t) acts.length)
  let acts1 := g.updateActivations odds acts
  let acts2 := applyPostactCorruption odds acts1
  let evens := range2 0 (min (2 * t + 1) acts2.length)
  g.updateActivations evens acts2

/-- `GSN._update` with its optional `time` argument: `time=None` defaults to
`len(self.activations)`. -/
def GSN.updateOpt (g : GSN) (acts : List Expr) (t : Option Nat) : List Expr :=
  g.update acts (t.getD acts.length)

/-- The loop of `GSN._set_activations`: at step `i` append
`T.zeros_like(T.dot(activations[i], aes[i].weights))`, where `activations[i]`
is the element appended by the previous step. -/
def setActsAux (prev : Expr) (i : Nat) : Nat → List Expr
  | 0 => []
  | k + 1 =>
    Expr.zerosLike (Expr.dot prev (Expr.weight i)) ::
      setActsAux (Expr.zerosLike (Expr.dot prev (Expr.weight i))) (i + 1) k

/-- `GSN._set_activations(minibatch)`: visible activation
`postact_cors[0](minibatch)`, then one zero tensor per autoencoder. -/
def GSN.setActivations (g : GSN) (mb : Expr) : List Expr :=
  Expr.postCor 0 mb :: setActsAux (Expr.postCor 0 mb) 0 g.aes.length

/-- One iteration of the loop in `GSN._run` at time `t`: call `_update`,
record `activations[:2t+1]` (a shallow copy), then apply post-activation
corruption to the even layers.  Returns (new activations, recorded step). -/
def GSN.stepOnce (g : GSN) (acts : List Expr) (t : Nat) : List Expr × List Expr :=
  let acts1 := g.update acts t
  let recorded := acts1.take (2 * t + 1)
  let evens := range2 0 (min (2 * t + 1) acts1.length)
  (applyPostactCorruption evens acts1, recorded)

/-- The loop of `GSN._run` over the remaining time steps, threading the
activation state and accumulating the recorded steps. -/
def GSN.runAux (g : GSN) : List Expr → List (List Expr) → List Nat → List (List Expr) × List Expr
  | acts, steps, [] => (steps, acts)
  | acts, steps, t :: ts =>
    g.runAux (g.stepOnce acts t).1 (steps ++ [(g.stepOnce acts t).2]) ts

/-- `GSN._run(minibatch, walkback)` with `clamped=None`: set the activations,
start from `steps = [[activations[0]]]`, and iterate `_update` for
`time = 1, ..., len(aes) + walkback`. -/
def GSN.run (g : GSN) (mb : Expr) (walkback : Nat) : List (List Expr) :=
  let acts := g.setActivations mb
  (g.runAux acts [[acts.getD 0 default]] (List.range' 1 (g.aes.length + walkback))).1

/-- `GSN.get_samples(minibatch, walkback)`: run the GSN and return
`[act[0] for act in results[len(self.aes):]]`. -/
def GSN.getSamples (g : GSN) (mb : Expr) (walkback : Nat) : List Expr :=
  ((g.run mb walkback).drop g.aes.length).map (fun act => act.getD 0 default)

/-- `Autoencoder.get_params`. -/
def Autoencoder.getParams (ae : Autoencoder) : List Nat := ae.params

/-- `GSN.get_params`: `params = []`, then `params.extend(ae.get_params())`
for each autoencoder in order. -/
def GSN.getParams (g : GSN) : List Nat :=
  g.aes.foldl (fun ps ae => ps ++ ae.getParams) []

/-- `GSN.get_params` as a state-passing method call: it returns the parameter
list together with the (unmodified) receiver. -/
def GSN.getParamsS (g : GSN) : GSN × List Nat := (g, g.getParams)

theorem foldl_append_getParams (aes : List Autoencoder) (ps : List Nat) :
    aes.foldl (fun ps ae => ps ++ ae.getParams) ps =
      ps ++ (aes.map Autoencoder.getParams).flatten := by
  induction aes generalizing ps with
  | nil => simp
  | cons ae rest ih => simp [List.foldl_cons, ih, List.append_assoc]

theorem updateActivations_length (g : GSN) (idx : List Nat) (acts : List Expr) :
    (g.updateActivations idx acts).length = acts.length := by
  unfold GSN.updateActivations
  induction idx generalizing acts with
  | nil => rfl
  | cons i rest ih => simp [List.foldl_cons, ih]

theorem applyPostactCorruption_length (idx : List Nat) (acts : List Expr) :
    (applyPostactCorruption idx acts).length = acts.length := by
  unfold applyPostactCorruption
  induction idx generalizing acts with
  | nil => rfl
  | cons i rest ih => rw [List.foldl_cons, ih, List.length_set]

theorem update_length (g : GSN) (acts : List Expr) (t : Nat) :
    (g.update acts t).length = acts.length := by
  unfold GSN.update
  simp [updateActivations_length, applyPostactCorruption_length]

theorem stepOnce_fst_length (g : GSN) (acts : List Expr) (t : Nat) :
    (g.stepOnce acts t).1.length = acts.length := by
  unfold GSN.stepOnce
  simp [applyPostactCorruption_length, update_length]

theorem stepOnce_snd_length (g : GSN) (acts : List Expr) (t : Nat) :
    (g.stepOnce acts t).2.length = min (2 * t + 1) acts.length := by
  unfold GSN.stepOnce
  simp [update_length]

theorem setActsAux_length (prev : Expr) (i k : Nat) :
    (setActsAux prev i k).length = k := by
  induction k generalizing prev i with
  | zero => rfl
  | succ k ih => simp [setActsAux, ih]

theorem setActivations_length (g : GSN) (mb : Expr) :
    (g.setActivations mb).length = g.aes.length + 1 := by
  simp [GSN.setActivations, setActsAux_length]

/-- The list of steps recorded by the loop of `GSN._run` starting from
activation state `acts`, with one entry per remaining time step. -/
def GSN.recList (g : GSN) : List Expr → List Nat → List (List Expr)
  | _, [] => []
  | acts, t :: ts => (g.stepOnce acts t).2 :: g.recList (g.stepOnce acts t).1 ts

theorem runAux_fst_eq (g : GSN) (acts : List Expr) (steps : List (List Expr))
    (ts : List Nat) :
    (g.runAux acts steps ts).1 = steps ++ g.recList acts ts := by
  induction ts generalizing acts steps with
  | nil => simp [GSN.runAux, GSN.recList]
  | cons t rest ih =>
    simp [GSN.runAux, GSN.recList, ih, List.append_assoc]

theorem recList_length (g : GSN) (acts : List Expr) (ts : List Nat) :
    (g.recList acts ts).length = ts.length := by
  induction ts generalizing acts with
  | nil => rfl
  | cons t rest ih => simp [GSN.recList, ih]

theorem run_length (g : GSN) (mb : Expr) (w : Nat) :
    (g.run mb w).length = g.aes.length + w + 1 := by
  unfold GSN.run
  rw [runAux_fst_eq]
  simp [recList_length]

/-- C1: `GSN._run(minibatch, walkback=w)` performs `n + w` update steps and
returns `n + w + 1` step entries, and `GSN.get_samples(minibatch, walkback=w)`
returns exactly `1 + w` samples, namely the visible-layer (index 0)
activation of each of the last `1 + w` recorded steps. -/
theorem gsn_run_steps_and_samples (g : GSN) (mb : Expr) (w : Nat) :
    (g.run mb w).length = g.aes.length + w + 1 ∧
    (g.getSamples mb w).length = 1 + w ∧
    ∀ k, k < 1 + w →
      (g.getSamples mb w).getD k default =
        ((g.run mb w).getD (g.aes.length + k) []).getD 0 default := by
  refine ⟨run_length g mb w, ?_, ?_⟩
  · unfold GSN.getSamples
    simp [run_length]
    omega
  · intro k hk
    unfold GSN.getSamples
    have hlt : g.aes.length + k < (g.run mb w).length := by
      rw [run_length]; omega
    simp only [List.getD_eq_getElem?_getD, List.getElem?_map, List.getElem?_drop]
    rw [List.getElem?_eq_getElem hlt]
    simp

theorem gsn_run_steps_and_samples_witness :
    let g : GSN := ⟨[⟨[0], false, false⟩, ⟨[1], false, false⟩]⟩
    (1 : Nat) < 1 + 1 ∧
      (g.getSamples Expr.minibatch 1).getD 1 default =
        ((g.run Expr.minibatch 1).getD (g.aes.length + 1) []).getD 0 default := by
  exact ⟨by decide,
    (gsn_run_steps_and_samples ⟨[⟨[0], false, false⟩, ⟨[1], false, false⟩]⟩
      Expr.minibatch 1).2.2 1 (by decide)⟩

theorem setActsAux_mem_zerosLike (prev : Expr) (i k : Nat) :
    ∀ e ∈ setActsAux prev i k, ∃ d, e = Expr.zerosLike d := by
  induction k generalizing prev i with
  | zero => intro e he; simp [setActsAux] at he
  | succ k ih =>
    intro e he
    simp only [setActsAux, List.mem_cons] at he
    rcases he with h | h
    · exact ⟨Expr.dot prev (Expr.weight i), h⟩
    · exact ih _ _ e h

theorem recList_getD_length (g : GSN) (ts : List Nat) :
    ∀ (acts : List Expr) (k : Nat), k < ts.length →
      ((g.recList acts ts).getD k []).length = min (2 * ts.getD k 0 + 1) acts.length := by
  induction ts with
  | nil => intro acts k hk; simp at hk
  | cons t rest ih =>
    intro acts k hk
    cases k with
    | zero =>
      simp [GSN.recList, stepOnce_snd_length]
    | succ k =>
      have hk' : k < rest.length := by simpa using hk
      have := ih (g.stepOnce acts t).1 k hk'
      rw [stepOnce_fst_length] at this
      simpa [GSN.recList] using this

theorem run_getD_succ (g : GSN) (mb : Expr) (w t : Nat) (h1 : 1 ≤ t) :
    (g.run mb w).getD t [] =
      (g.recList (g.setActivations mb) (List.range' 1 (g.aes.length + w))).getD (t - 1) [] := by
  unfold GSN.run
  rw [runAux_fst_eq]
  simp only [List.getD_eq_getElem?_getD]
  rw [List.getElem?_append_right (by simpa using h1)]
  simp

/-- C5: `GSN._set_activations` sets the visible activation to the
post-activation corruptor at index 0 applied to the minibatch and every one
of the `n` hidden activations to a zero tensor; the first entry of the list
returned by `GSN._run` contains exactly the visible activation, and the entry
recorded at time step `t` contains exactly `min(2t + 1, n + 1)` activations. -/
theorem gsn_set_activations_and_step_sizes (g : GSN) (mb : Expr) (w : Nat) :
    (g.setActivations mb).getD 0 default = Expr.postCor 0 mb ∧
    (g.setActivations mb).length = g.aes.length + 1 ∧
    (∀ e ∈ (g.setActivations mb).tail, ∃ d, e = Expr.zerosLike d) ∧
    (g.run mb w).getD 0 [] = [Expr.postCor 0 mb] ∧
    (∀ t, 1 ≤ t → t ≤ g.aes.length + w →
      ((g.run mb w).getD t []).length = min (2 * t + 1) (g.aes.length + 1)) := by
  refine ⟨rfl, setActivations_length g mb, ?_, ?_, ?_⟩
  · intro e he
    exact setActsAux_mem_zerosLike _ _ _ e (by simpa [GSN.setActivations] using he)
  · unfold GSN.run
    rw [runAux_fst_eq]
    rfl
  · intro t h1 h2
    rw [run_getD_succ g mb w t h1]
    have hk : t - 1 < (List.range' 1 (g.aes.length + w)).length := by
      simp; omega
    rw [recList_getD_length g _ _ _ hk, setActivations_length]
    have : (List.range' 1 (g.aes.length + w)).getD (t - 1) 0 = t := by
      simp only [List.getD_eq_getElem?_getD]
      rw [List.getElem?_eq_getElem hk]
      simp [List.getElem_range']
      omega
    rw [this]

theorem gsn_set_activations_and_step_sizes_witness :
    let g : GSN := ⟨[⟨[0], false, false⟩, ⟨[1], false, false⟩]⟩
    (1 : Nat) ≤ 1 ∧ (1 : Nat) ≤ g.aes.length + 0 ∧
      ((g.run Expr.minibatch 0).getD 1 []).length = min (2 * 1 + 1) (g.aes.length + 1) := by
  exact ⟨by decide, by decide,
    (gsn_set_activations_and_step_sizes ⟨[⟨[0], false, false⟩, ⟨[1], false, false⟩]⟩
      Expr.minibatch 0).2.2.2.2 1 (by decide) (by decide)⟩

theorem mem_range2_zero (b i : Nat) : i ∈ range2 0 b ↔ i % 2 = 0 ∧ i < b := by
  simp only [range2, List.mem_map, List.mem_range]
  constructor
  · rintro ⟨k, hk, rfl⟩
    omega
  · rintro ⟨h0, hb⟩
    exact ⟨i / 2, by omega, by omega⟩

theorem range2_nodup (a b : Nat) : (range2 a b).Nodup := by
  refine (List.nodup_range _).map ?_
  intro x y h
  dsimp only at h
  omega

theorem applyPostact_getD_not_mem (idx : List Nat) (acts : List Expr) (i : Nat)
    (h : i ∉ idx) :
    (applyPostactCorruption idx acts).getD i default = acts.getD i default := by
  unfold applyPostactCorruption
  induction idx generalizing acts with
  | nil => rfl
  | cons j rest ih =>
    have hij : i ≠ j := fun he => h (he ▸ List.mem_cons_self j rest)
    rw [List.foldl_cons, ih _ (fun hm => h (List.mem_cons_of_mem j hm))]
    simp [List.getD_eq_getElem?_getD, List.getElem?_set_ne (Ne.symm hij)]

theorem applyPostact_getD_mem (idx : List Nat) (acts : List Expr) (i : Nat)
    (hnd : idx.Nodup) (hm : i ∈ idx) (hi : i < acts.length) :
    (applyPostactCorruption idx acts).getD i default =
      Expr.postCor i (acts.getD i default) := by
  induction idx generalizing acts with
  | nil => simp at hm
  | cons j rest ih =>
    have hrec : applyPostactCorruption (j :: rest) acts =
        applyPostactCorruption rest
          (acts.set j (Expr.postCor j (acts.getD j default))) := rfl
    rcases List.mem_cons.mp hm with rfl | hm'
    · have hnotin : i ∉ rest := (List.nodup_cons.mp hnd).1
      rw [hrec, applyPostact_getD_not_mem rest _ i hnotin]
      simp [List.getD_eq_getElem?_getD, List.getElem?_set_self hi]
    · have hij : i ≠ j := by
        intro he
        subst he
        exact (List.nodup_cons.mp hnd).1 hm'
      rw [hrec, ih _ (List.nodup_cons.mp hnd).2 hm' (by simpa using hi)]
      simp [List.getD_eq_getElem?_getD, List.getElem?_set_ne (Ne.symm hij)]

/-- C4: each `GSN._update(time=t)` first recomputes and post-corrupts the odd
layers below `min(2t, L)`, then recomputes the even layers below `min(2t+1,
L)` without corrupting them; `_run` records the first `2t+1` activations and
only afterwards post-corrupts the even layers, so the even-layer activations
recorded for the step are the uncorrupted ones. -/
theorem gsn_update_schedule (g : GSN) (acts : List Expr) (t : Nat) :
    (g.update acts t =
      g.updateActivations (range2 0 (min (2 * t + 1) acts.length))
        (applyPostactCorruption (range2 1 (min (2 * t) acts.length))
          (g.updateActivations (range2 1 (min (2 * t) acts.length)) acts))) ∧
    (g.stepOnce acts t).2 = (g.update acts t).take (2 * t + 1) ∧
    (∀ i, i % 2 = 0 → i < min (2 * t + 1) acts.length →
      (g.stepOnce acts t).1.getD i default =
        Expr.postCor i ((g.update acts t).getD i default)) := by
  refine ⟨?_, rfl, ?_⟩
  · simp only [GSN.update]
    rw [applyPostactCorruption_length, updateActivations_length]
  · intro i hev hlt
    have hul : (g.update acts t).length = acts.length := update_length g acts t
    have hm : i ∈ range2 0 (min (2 * t + 1) (g.update acts t).length) := by
      rw [hul, mem_range2_zero]
      exact ⟨hev, hlt⟩
    have hi : i < (g.update acts t).length := by
      rw [hul]
      omega
    show (applyPostactCorruption _ (g.update acts t)).getD i default = _
    exact applyPostact_getD_mem _ _ _ (range2_nodup _ _) hm hi

theorem gsn_update_schedule_witness :
    let g : GSN := ⟨[⟨[0], false, false⟩, ⟨[1], false, false⟩]⟩
    let acts : List Expr := [Expr.minibatch, Expr.minibatch, Expr.minibatch]
    (0 : Nat) % 2 = 0 ∧ (0 : Nat) < min (2 * 1 + 1) acts.length ∧
      (g.stepOnce acts 1).1.getD 0 default =
        Expr.postCor 0 ((g.update acts 1).getD 0 default) := by
  exact ⟨by decide, by decide,
    (gsn_update_schedule ⟨[⟨[0], false, false⟩, ⟨[1], false, false⟩]⟩
      [Expr.minibatch, Expr.minibatch, Expr.minibatch] 1).2.2 0 (by decide) (by decide)⟩

/-- C2: in every call to `GSN._update_activations` each selected layer `i` is
set, from the current activations, to: for `i = 0` the visible rule (visbias
of autoencoder 0 plus the dot of activation 1 with the transposed weights,
corrupted by the preactivation corruptor at 0, then activated by `act_dec` of
autoencoder 0); for the topmost layer the from-below rule only; for interior
layers the sum of the from-below and from-above terms; every layer `i > 0`
is activated by `act_enc` of autoencoder `i - 1`, with `None` meaning
linear. -/
theorem gsn_update_activations_layer_rule (g : GSN) (acts : List Expr) (i : Nat) :
    (∀ idx as, g.updateActivations idx as =
        idx.foldl (fun a j => a.set j (g.computeAct a j)) as) ∧
    (i = 0 → g.computeAct acts 0 =
      (if (g.aes.getD 0 default).actDecNone then
        Expr.preCor 0 (Expr.add (Expr.visbias 0)
          (Expr.dot (acts.getD 1 default) (Expr.transpose (Expr.weight 0))))
      else
        Expr.actDec 0 (Expr.preCor 0 (Expr.add (Expr.visbias 0)
          (Expr.dot (acts.getD 1 default) (Expr.transpose (Expr.weight 0))))))) ∧
    (0 < i → i = acts.length - 1 → g.computeAct acts i =
      (if (g.aes.getD (i - 1) default).actEncNone then
        Expr.preCor i (Expr.add (Expr.hidbias (i - 1))
          (Expr.dot (acts.getD (i - 1) default) (Expr.weight (i - 1))))
      else
        Expr.actEnc (i - 1) (Expr.preCor i (Expr.add (Expr.hidbias (i - 1))
          (Expr.dot (acts.getD (i - 1) default) (Expr.weight (i - 1))))))) ∧
    (0 < i → i < acts.length - 1 → g.computeAct acts i =
      (if (g.aes.getD (i - 1) default).actEncNone then
        Expr.preCor i (Expr.add
          (Expr.add (Expr.hidbias (i - 1))
            (Expr.dot (acts.getD (i - 1) default) (Expr.weight (i - 1))))
          (Expr.add (Expr.visbias i)
            (Expr.dot (acts.getD (i + 1) default) (Expr.transpose (Expr.weight i)))))
      else
        Expr.actEnc (i - 1) (Expr.preCor i (Expr.add
          (Expr.add (Expr.hidbias (i - 1))
            (Expr.dot (acts.getD (i - 1) default) (Expr.weight (i - 1))))
          (Expr.add (Expr.visbias i)
            (Expr.dot (acts.getD (i + 1) default) (Expr.transpose (Expr.weight i)))))))) := by
  refine ⟨fun idx as => rfl, ?_, ?_, ?_⟩
  · intro _
    simp [GSN.computeAct, fromAbove]
  · intro h1 h2
    subst h2
    have hne : acts.length - 1 ≠ 0 := by omega
    simp [GSN.computeAct, fromBelow, hne]
  · intro h1 h2
    have hne : i ≠ 0 := by omega
    have hne2 : i ≠ acts.length - 1 := by omega
    simp [GSN.computeAct, fromBelow, fromAbove, hne, hne2]

theorem gsn_update_activations_layer_rule_witness :
    (0 : Nat) < 2 ∧
    (2 : Nat) = ([Expr.minibatch, Expr.minibatch, Expr.minibatch] : List Expr).length - 1 ∧
    (0 : Nat) < 1 ∧
    (1 : Nat) < ([Expr.minibatch, Expr.minibatch, Expr.minibatch] : List Expr).length - 1 ∧
    GSN.computeAct ⟨[⟨[0], false, false⟩, ⟨[1], false, false⟩]⟩
        [Expr.minibatch, Expr.minibatch, Expr.minibatch] 0 =
      Expr.actDec 0 (Expr.preCor 0 (Expr.add (Expr.visbias 0)
        (Expr.dot Expr.minibatch (Expr.transpose (Expr.weight 0))))) ∧
    GSN.computeAct ⟨[⟨[0], false, false⟩, ⟨[1], false, false⟩]⟩
        [Expr.minibatch, Expr.minibatch, Expr.minibatch] 2 =
      Expr.actEnc 1 (Expr.preCor 2 (Expr.add (Expr.hidbias 1)
        (Expr.dot Expr.minibatch (Expr.weight 1)))) ∧
    GSN.computeAct ⟨[⟨[0], false, false⟩, ⟨[1], false, false⟩]⟩
        [Expr.minibatch, Expr.minibatch, Expr.minibatch] 1 =
      Expr.actEnc 0 (Expr.preCor 1 (Expr.add
        (Expr.add (Expr.hidbias 0) (Expr.dot Expr.minibatch (Expr.weight 0)))
        (Expr.add (Expr.visbias 1)
          (Expr.dot Expr.minibatch (Expr.transpose (Expr.weight 1)))))) := by
  refine ⟨by decide, by decide, by decide, by decide, ?_, ?_, ?_⟩
  · simpa using
      (gsn_update_activations_layer_rule ⟨[⟨[0], false, false⟩, ⟨[1], false, false⟩]⟩
        [Expr.minibatch, Expr.minibatch, Expr.minibatch] 0).2.1 rfl
  · simpa using
      (gsn_update_activations_layer_rule ⟨[⟨[0], false, false⟩, ⟨[1], false, false⟩]⟩
        [Expr.minibatch, Expr.minibatch, Expr.minibatch] 2).2.2.1 (by decide) (by decide)
  · simpa using
      (gsn_update_activations_layer_rule ⟨[⟨[0], false, false⟩, ⟨[1], false, false⟩]⟩
        [Expr.minibatch, Expr.minibatch, Expr.minibatch] 1).2.2.2 (by decide) (by decide)

/-- Corruptor values handled by `GSN.new`: the stochastic `BinomialSampler`,
`ComposedCorruptor`, or a user-supplied corruptor (opaque identifier). -/
inductive Cor : Type
  | binomial : Cor
  | composed : Cor → Cor → Cor
  | custom : Nat → Cor
  deriving DecidableEq, Repr

/-- The corruptor lists built by `GSN.new` for a stack of `nAes`
autoencoders: `none` stands for a non-callable argument (such as `None`).
`vis_corruptor` is composed with a fresh `BinomialSampler` when callable and
replaced by a plain `BinomialSampler` otherwise; then
`pre_corruptors = [None] + [hidden_pre_corruptor] * len(aes)` and
`post_corruptors = [vis_corruptor] + [hidden_post_corruptor] * len(aes)`.
Returns `(pre_corruptors, post_corruptors)`. -/
def newCorruptors (nAes : Nat) (vis hiddenPre hiddenPost : Option Cor) :
    List (Option Cor) × List (Option Cor) :=
  let visCor : Cor :=
    match vis with
    | some c => Cor.composed c Cor.binomial
    | none => Cor.binomial
  (none :: List.replicate nAes hiddenPre, some visCor :: List.replicate nAes hiddenPost)

/-- C7: `GSN.new` always makes the visible post-activation corruptor
stochastic (a `BinomialSampler`, composed with `vis_corruptor` when the
latter is callable), replicates the hidden pre/post corruptors once per
autoencoder, and puts no corruptor at the visible preactivation position. -/
theorem gsn_new_corruptors_spec (nAes : Nat) (vis hiddenPre hiddenPost : Option Cor) :
    (∀ c, vis = some c →
      (newCorruptors nAes vis hiddenPre hiddenPost).2.getD 0 none =
        some (Cor.composed c Cor.binomial)) ∧
    (vis = none →
      (newCorruptors nAes vis hiddenPre hiddenPost).2.getD 0 none = some Cor.binomial) ∧
    (newCorruptors nAes vis hiddenPre hiddenPost).2.tail = List.replicate nAes hiddenPost ∧
    (newCorruptors nAes vis hiddenPre hiddenPost).1.getD 0 (some Cor.binomial) = none ∧
    (newCorruptors nAes vis hiddenPre hiddenPost).1.tail = List.replicate nAes hiddenPre := by
  refine ⟨?_, ?_, rfl, rfl, rfl⟩
  · intro c hc
    subst hc
    rfl
  · intro hc
    subst hc
    rfl

theorem gsn_new_corruptors_spec_witness :
    ((newCorruptors 2 (some (Cor.custom 7)) (some (Cor.custom 1)) none).2.getD 0 none =
      some (Cor.composed (Cor.custom 7) Cor.binomial)) ∧
    ((newCorruptors 2 none (some (Cor.custom 1)) none).2.getD 0 none = some Cor.binomial) := by
  exact ⟨(gsn_new_corruptors_spec 2 (some (Cor.custom 7)) (some (Cor.custom 1)) none).1
      (Cor.custom 7) rfl,
    (gsn_new_corruptors_spec 2 none (some (Cor.custom 1)) none).2.1 rfl⟩

/-- C10: `GSN.get_params` returns the concatenation, in layer order from the
first to the last autoencoder, of the parameter lists of each autoencoder,
and does not modify the GSN. -/
theorem gsn_get_params_concat_and_pure (g : GSN) :
    g.getParamsS = (g, (g.aes.map Autoencoder.getParams).flatten) := by
  unfold GSN.getParamsS GSN.getParams
  rw [foldl_append_getParams]
  simp

/-!
The `Monitor` of `pylearn2/monitor.py`.  Theano floats become exact
rationals, batch designs become opaque identifiers (`Nat`), a channel's
symbolic `val` expression becomes the function obtained by clamping its
`ipt` to a batch, and the two compiled theano functions
(`begin_record_entry` and `accum`) are represented by the list
`compiledFor` of names of the channels they were compiled over.
-/

/-- A monitor `Channel`: after `Channel.__init__` the accumulator
`val_shared` is `0.0` and the three records are empty. -/
structure Channel where
  ipt : Nat
  val : Nat → Rat
  val_shared : Rat
  batch_record : List Nat
  example_record : List Nat
  val_record : List Rat

instance : Inhabited Channel := ⟨⟨0, fun _ => 0, 0, [], [], []⟩⟩

/-- `Channel.__init__(ipt, val, name)`. -/
def Channel.init (ipt : Nat) (val : Nat → Rat) : Channel :=
  { ipt := ipt, val := val, val_shared := 0,
    batch_record := [], example_record := [], val_record := [] }

/-- A monitoring dataset: `getBatch p s` is the batch design returned by
`get_batch_design(s)` at stream position `p`, and `pos` is the current
stream position (`restart_stream` resets it to 0,
`get_stream_position` / `set_stream_position` read and write it). -/
structure Dataset where
  getBatch : Nat → Nat → Nat
  pos : Nat

/-- The `Monitor` state.  `compiledFor` lists the names of the channels the
compiled `begin_record_entry` / `accum` functions close over (empty before
the first compilation). -/
structure Monitor where
  model : Nat
  channels : List (String × Channel)
  batches_seen : Nat
  examples_seen : Nat
  dataset : Option Dataset
  batches : Nat
  batch_size : Nat
  dirty : Bool
  compiledFor : List String

/-- `Monitor.__init__(model)`. -/
def Monitor.init (model : Nat) : Monitor :=
  { model := model, channels := [], batches_seen := 0, examples_seen := 0,
    dataset := none, batches := 0, batch_size := 0, dirty := true,
    compiledFor := [] }

/-- `Monitor.set_dataset(dataset, batches, batch_size)`. -/
def Monitor.setDataset (m : Monitor) (d : Dataset) (batches batch_size : Nat) : Monitor :=
  { m with dataset := some d, batches := batches, batch_size := batch_size }

/-- `Monitor.redo_theano`: clear `dirty` and recompile the two theano
functions over the channels currently registered. -/
def Monitor.redoTheano (m : Monitor) : Monitor :=
  { m with dirty := false, compiledFor := m.channels.map Prod.fst }

/-- `Monitor.add_channel(name, ipt, val)`: raise `ValueError` when a channel
with this name is already registered, otherwise store a fresh channel under
the name and mark the monitor dirty. -/
def Monitor.addChannel (m : Monitor) (name : String) (ipt : Nat) (val : Nat → Rat) :
    Except String Monitor :=
  if name ∈ m.channels.map Prod.fst then
    Except.error ("Tried to create the same channel twice (" ++ name ++ ")")
  else
    Except.ok { m with
      channels := m.channels ++ [(name, Channel.init ipt val)]
      dirty := true }

/-- `Monitor.add_channel` as a state transition: a raised exception leaves
the receiver unchanged and is returned alongside it. -/
def Monitor.addChannelStep (m : Monitor) (name : String) (ipt : Nat) (val : Nat → Rat) :
    Monitor × Option String :=
  match m.addChannel name ipt val with
  | Except.error e => (m, some e)
  | Except.ok m2 => (m2, none)

/-- The compiled `begin_record_entry` function: set `val_shared` to `0.0`
for every channel it was compiled over. -/
def beginRecordEntry (cf : List String) (chans : List (String × Channel)) :
    List (String × Channel) :=
  chans.map (fun p => if p.1 ∈ cf then (p.1, { p.2 with val_shared := 0 }) else p)

/-- The compiled `accum` function applied to one batch design `X`: add
`val` (clamped to `X`) to `val_shared` for every channel it was compiled
over. -/
def accumOnce (cf : List String) (chans : List (String × Channel)) (X : Nat) :
    List (String × Channel) :=
  chans.map (fun p =>
    if p.1 ∈ cf then (p.1, { p.2 with val_shared := p.2.val_shared + p.2.val X }) else p)

/-- The accumulation loop of `Monitor.__call__`: `k` times, draw
`X = d.get_batch_design(bs)` (advancing the stream) and run `accum(X)`. -/
def accumLoop (cf : List String) (bs : Nat) :
    List (String × Channel) → Dataset → Nat → List (String × Channel) × Dataset
  | chans, d, 0 => (chans, d)
  | chans, d, k + 1 =>
      accumLoop cf bs (accumOnce cf chans (d.getBatch d.pos bs))
        { d with pos := d.pos + 1 } k

/-- The body of `Monitor.__call__` after the dirty check: when a dataset is
present, save the stream position, restart the stream, run
`begin_record_entry`, accumulate over `self.batches` batches, append to
every channel's records, and restore the stream position. -/
def Monitor.callBody (m : Monitor) : Monitor :=
  match m.dataset with
  | none => m
  | some d =>
    let s := d.pos
    let chans1 := beginRecordEntry m.compiledFor m.channels
    let r := accumLoop m.compiledFor m.batch_size chans1 { d with pos := 0 } m.batches
    let chans2 := r.1.map (fun p =>
      (p.1, { p.2 with
        batch_record := p.2.batch_record ++ [m.batches_seen],
        example_record := p.2.example_record ++ [m.examples_seen],
        val_record := p.2.val_record ++ [p.2.val_shared / (m.batches : Rat)] }))
    { m with channels := chans2, dataset := some { r.2 with pos := s } }

/-- `Monitor.__call__`: recompile first when dirty, then run the body. -/
def Monitor.call (m : Monitor) : Monitor :=
  (if m.dirty then m.redoTheano else m).callBody

/-- The public operations on a monitor, for stating reachability. -/
inductive MOp : Type
  | addCh : String → Nat → (Nat → Rat) → MOp
  | setDs : Dataset → Nat → Nat → MOp
  | redo : MOp
  | call : MOp

def applyOp (m : Monitor) : MOp → Monitor
  | MOp.addCh name ipt val => (m.addChannelStep name ipt val).1
  | MOp.setDs d b bs => m.setDataset d b bs
  | MOp.redo => m.redoTheano
  | MOp.call => m.call

/-- A monitor state reachable from `Monitor.__init__` through the public
operations. -/
def Reachable (m : Monitor) : Prop :=
  ∃ (model : Nat) (ops : List MOp), m = ops.foldl applyOp (Monitor.init model)

/-- The staleness invariant: whenever `dirty` is clear, the compiled
functions cover exactly the registered channels. -/
def MInv (m : Monitor) : Prop :=
  m.dirty = false → m.compiledFor = m.channels.map Prod.fst

/-- The per-batch value of a channel: `val` clamped to the batch drawn at
stream position `i`, summed over the `b` batches of size `bs`. -/
def channelSum (d : Dataset) (b bs : Nat) (c : Channel) : Rat :=
  ((List.range' 0 b).map (fun i => c.val (d.getBatch i bs))).sum

theorem accumLoop_fst (cf : List String) (bs : Nat) (k : Nat) :
    ∀ (chans : List (String × Channel)) (d : Dataset),
      (accumLoop cf bs chans d k).1 =
        chans.map (fun p =>
          if p.1 ∈ cf then
            (p.1, { p.2 with val_shared := p.2.val_shared +
              ((List.range' d.pos k).map (fun i => p.2.val (d.getBatch i bs))).sum })
          else p) := by
  induction k with
  | zero =>
    intro chans d
    have hid : ∀ p : String × Channel,
        (if p.1 ∈ cf then
          (p.1, { p.2 with val_shared := p.2.val_shared +
            ((List.range' d.pos 0).map (fun i => p.2.val (d.getBatch i bs))).sum })
        else p) = p := by
      intro p
      split <;> simp
    rw [List.map_congr_left (fun p _ => hid p)]
    simp [accumLoop]
  | succ k ih =>
    intro chans d
    show (accumLoop cf bs (accumOnce cf chans (d.getBatch d.pos bs))
        { d with pos := d.pos + 1 } k).1 = _
    rw [ih]
    unfold accumOnce
    rw [List.map_map]
    apply List.map_congr_left
    intro p _
    by_cases h : p.1 ∈ cf
    · simp [h, List.range'_succ, add_assoc]
    · simp [h]

theorem map_fst_pres {β : Type} (f : String × β → String × β)
    (l : List (String × β)) (h : ∀ p, (f p).1 = p.1) :
    (l.map f).map Prod.fst = l.map Prod.fst := by
  rw [List.map_map]
  apply List.map_congr_left
  intro p _
  exact h p

theorem callBody_dirty (m : Monitor) : m.callBody.dirty = m.dirty := by
  unfold Monitor.callBody
  split <;> rfl

theorem callBody_compiledFor (m : Monitor) : m.callBody.compiledFor = m.compiledFor := by
  unfold Monitor.callBody
  split <;> rfl

theorem callBody_batches_seen (m : Monitor) : m.callBody.batches_seen = m.batches_seen := by
  unfold Monitor.callBody
  split <;> rfl

theorem callBody_examples_seen (m : Monitor) : m.callBody.examples_seen = m.examples_seen := by
  unfold Monitor.callBody
  split <;> rfl

theorem callBody_names (m : Monitor) :
    m.callBody.channels.map Prod.fst = m.channels.map Prod.fst := by
  unfold Monitor.callBody
  split
  · rfl
  · show ((accumLoop _ _ _ _ _).1.map _).map Prod.fst = _
    rw [map_fst_pres]
    · rw [accumLoop_fst, map_fst_pres]
      · unfold beginRecordEntry
        rw [map_fst_pres]
        intro p
        split <;> rfl
      · intro p
        split <;> rfl
    · intro p
      rfl

theorem call_batches_seen (m : Monitor) : m.call.batches_seen = m.batches_seen := by
  unfold Monitor.call
  split
  · rw [callBody_batches_seen]
    rfl
  · rw [callBody_batches_seen]

theorem call_examples_seen (m : Monitor) : m.call.examples_seen = m.examples_seen := by
  unfold Monitor.call
  split
  · rw [callBody_examples_seen]
    rfl
  · rw [callBody_examples_seen]

theorem callBody_channels_spec (m : Monitor) (d : Dataset) (hd : m.dataset = some d)
    (hcf : ∀ p ∈ m.channels, p.1 ∈ m.compiledFor) :
    m.callBody.channels = m.channels.map (fun p =>
      (p.1, { p.2 with
        val_shared := channelSum d m.batches m.batch_size p.2
        batch_record := p.2.batch_record ++ [m.batches_seen]
        example_record := p.2.example_record ++ [m.examples_seen]
        val_record := p.2.val_record ++
          [channelSum d m.batches m.batch_size p.2 / (m.batches : Rat)] })) := by
  unfold Monitor.callBody
  split
  · rename_i hnone
    rw [hd] at hnone
    exact Option.noConfusion hnone
  · rename_i d' hsome
    rw [hd] at hsome
    injection hsome with hdd
    subst hdd
    show ((accumLoop _ _ _ _ _).1.map _) = _
    rw [accumLoop_fst]
    unfold beginRecordEntry
    rw [List.map_map, List.map_map]
    apply List.map_congr_left
    intro p hp
    have h := hcf p hp
    simp [h, channelSum]

theorem callBody_channels_getElem (m : Monitor) (d : Dataset) (hd : m.dataset = some d)
    (k : Nat) (p : String × Channel) (hp : m.channels[k]? = some p) :
    ∃ c : Channel, m.callBody.channels[k]? = some (p.1, c) ∧
      c.batch_record = p.2.batch_record ++ [m.batches_seen] ∧
      c.example_record = p.2.example_record ++ [m.examples_seen] ∧
      ∃ x : Rat, c.val_record = p.2.val_record ++ [x] := by
  unfold Monitor.callBody
  split
  · rename_i hnone
    rw [hd] at hnone
    exact Option.noConfusion hnone
  · rename_i d' hsome
    show ∃ c, ((accumLoop _ _ _ _ _).1.map _)[k]? = some (p.1, c) ∧ _
    rw [accumLoop_fst]
    unfold beginRecordEntry
    rw [List.map_map, List.map_map, List.getElem?_map, hp]
    by_cases h : p.1 ∈ m.compiledFor
    · simp only [Option.map_some', Function.comp_apply, h, if_true]
      exact ⟨_, rfl, rfl, rfl, _, rfl⟩
    · simp only [Option.map_some', Function.comp_apply, h, if_false]
      exact ⟨_, rfl, rfl, rfl, _, rfl⟩

theorem call_channels_getElem (m : Monitor) (d : Dataset) (hd : m.dataset = some d)
    (k : Nat) (p : String × Channel) (hp : m.channels[k]? = some p) :
    ∃ c : Channel, m.call.channels[k]? = some (p.1, c) ∧
      c.batch_record = p.2.batch_record ++ [m.batches_seen] ∧
      c.example_record = p.2.example_record ++ [m.examples_seen] ∧
      ∃ x : Rat, c.val_record = p.2.val_record ++ [x] := by
  unfold Monitor.call
  split
  · exact callBody_channels_getElem m.redoTheano d hd k p hp
  · exact callBody_channels_getElem m d hd k p hp

theorem minv_callBody (m : Monitor) (h : MInv m) : MInv m.callBody := by
  intro hdirty
  rw [callBody_compiledFor, callBody_names]
  apply h
  rw [← callBody_dirty m]
  exact hdirty

theorem minv_call (m : Monitor) (h : MInv m) : MInv m.call := by
  unfold Monitor.call
  split
  · exact minv_callBody _ (fun _ => rfl)
  · exact minv_callBody _ h

theorem minv_applyOp (m : Monitor) (op : MOp) (h : MInv m) : MInv (applyOp m op) := by
  cases op with
  | addCh name ipt val =>
    show MInv (m.addChannelStep name ipt val).1
    unfold Monitor.addChannelStep Monitor.addChannel
    by_cases hm : name ∈ m.channels.map Prod.fst
    · simpa [hm] using h
    · simp only [hm, if_false]
      intro hfalse
      exact absurd hfalse (by simp)
  | setDs d b bs =>
    intro hdirty
    exact h hdirty
  | redo =>
    intro _
    rfl
  | call => exact minv_call m h

theorem minv_foldl (ops : List MOp) : ∀ m : Monitor, MInv m → MInv (ops.foldl applyOp m) := by
  induction ops with
  | nil => exact fun m h => h
  | cons op rest ih => exact fun m h => ih _ (minv_applyOp m op h)

theorem reachable_minv (m : Monitor) (h : Reachable m) : MInv m := by
  obtain ⟨mdl, ops, rfl⟩ := h
  exact minv_foldl ops _ (fun hfalse => absurd hfalse (by simp [Monitor.init]))

/-- C3: with the dataset set (`b` batches of `batch_size` examples) and the
staleness invariant maintained by the dirty flag, every invocation of
`Monitor.__call__` appends to every channel's `val_record` exactly one value,
equal to the sum of the channel's `val` evaluated on each of the `b` drawn
batches divided by `float(b)`, the accumulator `val_shared` having been reset
to `0.0` at the start of the entry by `begin_record_entry`. -/
theorem monitor_call_val_record (m : Monitor) (d : Dataset)
    (hd : m.dataset = some d) (hinv : MInv m) :
    m.call.channels = m.channels.map (fun p =>
      (p.1, { p.2 with
        val_shared := channelSum d m.batches m.batch_size p.2
        batch_record := p.2.batch_record ++ [m.batches_seen]
        example_record := p.2.example_record ++ [m.examples_seen]
        val_record := p.2.val_record ++
          [channelSum d m.batches m.batch_size p.2 / (m.batches : Rat)] })) := by
  unfold Monitor.call
  split
  · exact callBody_channels_spec m.redoTheano d hd
      (fun p hp => List.mem_map_of_mem Prod.fst hp)
  · rename_i hb
    have hb' : m.dirty = false := by
      cases hdm : m.dirty
      · rfl
      · exact absurd hdm hb
    refine callBody_channels_spec m d hd ?_
    rw [hinv hb']
    exact fun p hp => List.mem_map_of_mem Prod.fst hp

theorem monitor_call_val_record_witness :
    let d : Dataset := ⟨fun p _ => p, 0⟩
    let m : Monitor :=
      ⟨0, [("c", ⟨0, fun X => (X : Rat), 5, [], [], []⟩)], 0, 0, some d, 2, 1, true, []⟩
    m.dataset = some d ∧ MInv m ∧
      m.call.channels = m.channels.map (fun p =>
        (p.1, { p.2 with
          val_shared := channelSum d m.batches m.batch_size p.2
          batch_record := p.2.batch_record ++ [m.batches_seen]
          example_record := p.2.example_record ++ [m.examples_seen]
          val_record := p.2.val_record ++
            [channelSum d m.batches m.batch_size p.2 / (m.batches : Rat)] })) := by
  intro d m
  have hM : MInv m := by
    intro h
    exact absurd h (by decide)
  exact ⟨rfl, hM, monitor_call_val_record m d rfl hM⟩

/-- C6: the monitor's compiled accumulation functions are never stale:
`Monitor.__init__` starts dirty, a successful `add_channel` sets `dirty`,
`redo_theano` clears it, `__call__` recompiles first whenever `dirty` is set,
and in every reachable state the accumulation phase of `__call__` runs with
functions compiled over exactly the currently registered channels. -/
theorem monitor_dirty_discipline (mdl : Nat) (m : Monitor) (name : String)
    (ipt : Nat) (val : Nat → Rat) :
    (Monitor.init mdl).dirty = true ∧
    ((m.addChannelStep name ipt val).2 = none →
      (m.addChannelStep name ipt val).1.dirty = true) ∧
    m.redoTheano.dirty = false ∧
    m.call = (if m.dirty then m.redoTheano else m).callBody ∧
    (Reachable m →
      (if m.dirty then m.redoTheano else m).compiledFor =
        (if m.dirty then m.redoTheano else m).channels.map Prod.fst) := by
  refine ⟨rfl, ?_, rfl, rfl, ?_⟩
  · unfold Monitor.addChannelStep Monitor.addChannel
    by_cases hm : name ∈ m.channels.map Prod.fst
    · simp [hm]
    · simp [hm]
  · intro hr
    have hinv := reachable_minv m hr
    split
    · rfl
    · rename_i hb
      apply hinv
      cases hdm : m.dirty
      · rfl
      · exact absurd hdm hb

theorem monitor_dirty_discipline_witness :
    ((Monitor.init 0).addChannelStep "x" 0 (fun _ => 0)).2 = none ∧
    ((Monitor.init 0).addChannelStep "x" 0 (fun _ => 0)).1.dirty = true ∧
    Reachable (Monitor.init 0) ∧
    (if (Monitor.init 0).dirty then (Monitor.init 0).redoTheano
      else Monitor.init 0).compiledFor =
      (if (Monitor.init 0).dirty then (Monitor.init 0).redoTheano
        else Monitor.init 0).channels.map Prod.fst := by
  refine ⟨rfl, ?_, ⟨0, [], rfl⟩, ?_⟩
  · exact (monitor_dirty_discipline 0 (Monitor.init 0) "x" 0 (fun _ => 0)).2.1 rfl
  · exact (monitor_dirty_discipline 0 (Monitor.init 0) "x" 0 (fun _ => 0)).2.2.2.2
      ⟨0, [], rfl⟩

/-- C8: `Monitor.add_channel` raises `ValueError` exactly when a channel with
the given name is already registered; the raise leaves the monitor unchanged,
and on success exactly one fresh channel (`0.0` accumulator, empty batch,
example and value records) is stored under the name and `dirty` is set. -/
theorem monitor_add_channel_spec (m : Monitor) (name : String) (ipt : Nat)
    (val : Nat → Rat) :
    ((m.addChannelStep name ipt val).2 ≠ none ↔ name ∈ m.channels.map Prod.fst) ∧
    (name ∈ m.channels.map Prod.fst → (m.addChannelStep name ipt val).1 = m) ∧
    (name ∉ m.channels.map Prod.fst →
      (m.addChannelStep name ipt val).1 = { m with
        channels := m.channels ++
          [(name, { ipt := ipt, val := val, val_shared := 0,
                    batch_record := [], example_record := [], val_record := [] })]
        dirty := true }) := by
  unfold Monitor.addChannelStep Monitor.addChannel
  by_cases hm : name ∈ m.channels.map Prod.fst
  · simp [hm]
  · simp [hm, Channel.init]

theorem monitor_add_channel_spec_witness :
    ("c" ∉ (Monitor.init 0).channels.map Prod.fst) ∧
    ((Monitor.init 0).addChannelStep "c" 3 (fun _ => 1)).1 = { Monitor.init 0 with
      channels := [("c", { ipt := 3, val := fun _ => 1, val_shared := 0,
                           batch_record := [], example_record := [], val_record := [] })]
      dirty := true } := by
  refine ⟨by simp [Monitor.init], ?_⟩
  have h := (monitor_add_channel_spec (Monitor.init 0) "c" 3 (fun _ => 1)).2.2
    (by simp [Monitor.init])
  simpa [Monitor.init] using h

/-- C9: `Monitor.__call__` never modifies `batches_seen` or `examples_seen`;
`__init__` sets both to 0 and no modelled method of `Monitor` changes them,
and each invocation of `__call__` (with a dataset) appends the current values
of those counters to every channel's `batch_record` and `example_record`. -/
theorem monitor_counters_frame (mdl : Nat) (m : Monitor) (op : MOp) (d : Dataset)
    (k : Nat) (p : String × Channel) :
    ((Monitor.init mdl).batches_seen = 0 ∧ (Monitor.init mdl).examples_seen = 0) ∧
    (m.call.batches_seen = m.batches_seen ∧ m.call.examples_seen = m.examples_seen) ∧
    ((applyOp m op).batches_seen = m.batches_seen ∧
      (applyOp m op).examples_seen = m.examples_seen) ∧
    (m.dataset = some d → m.channels[k]? = some p →
      ∃ c : Channel, m.call.channels[k]? = some (p.1, c) ∧
        c.batch_record = p.2.batch_record ++ [m.batches_seen] ∧
        c.example_record = p.2.example_record ++ [m.examples_seen]) := by
  refine ⟨⟨rfl, rfl⟩, ⟨call_batches_seen m, call_examples_seen m⟩, ?_, ?_⟩
  · cases op with
    | addCh n i v =>
      constructor
      · show (m.addChannelStep n i v).1.batches_seen = m.batches_seen
        unfold Monitor.addChannelStep Monitor.addChannel
        by_cases hm : n ∈ m.channels.map Prod.fst
        · simp [hm]
        · simp [hm]
      · show (m.addChannelStep n i v).1.examples_seen = m.examples_seen
        unfold Monitor.addChannelStep Monitor.addChannel
        by_cases hm : n ∈ m.channels.map Prod.fst
        · simp [hm]
        · simp [hm]
    | setDs d' b bs => exact ⟨rfl, rfl⟩
    | redo => exact ⟨rfl, rfl⟩
    | call => exact ⟨call_batches_seen m, call_examples_seen m⟩
  · intro hd hp
    obtain ⟨c, hc, hbr, her, _⟩ := call_channels_getElem m d hd k p hp
    exact ⟨c, hc, hbr, her⟩

theorem monitor_counters_frame_witness :
    let d : Dataset := ⟨fun p _ => p, 0⟩
    let m : Monitor :=
      ⟨0, [("c", ⟨0, fun _ => (1 : Rat), 0, [], [], []⟩)], 0, 0, some d, 1, 1, true, []⟩
    m.dataset = some d ∧
      m.channels[0]? = some ("c", ⟨0, fun _ => (1 : Rat), 0, [], [], []⟩) ∧
      ∃ c : Channel, m.call.channels[0]? = some ("c", c) ∧
        c.batch_record = [0] ∧ c.example_record = [0] := by
  intro d m
  refine ⟨rfl, rfl, ?_⟩
  have h := (monitor_counters_frame 0 m MOp.redo d 0
    ("c", ⟨0, fun _ => (1 : Rat), 0, [], [], []⟩)).2.2.2 rfl rfl
  simpa using h

end Pylearn2
